import Mathlib

/-!
Verification development for the reverse transpiler service (rts).

The definitions below are a shallow embedding of the core of the service:
`src/rts/core/rev_tran.py` (value formatting, sheet naming, reverse
transpilation, and the upsert/retrieve/delete orchestration over the two
stores) together with the store behaviour described by
`src/rts/adapters/outbound/dao.py` and the error classes of
`src/rts/ports/inbound/rev_tran.py`.
-/

/-- Python/JSON-like values as they occur in `StudyMetadata.content` rows:
scalars (`None`, `bool`, `int`, `float`, `str`), lists and dicts.
A Python `float` is embedded by the exact rational value of the double it
holds (`val` - every finite double is a rational, and two finite doubles are
equal exactly when their rational values are) together with its `repr` text
(`lit`), which is what `str()` prints; non-finite floats (nan, inf) are not
JSON-like data and are outside the embedding.  No float arithmetic is
performed anywhere in the embedded code - floats are only dispatched on,
compared and printed.  A dict is an insertion-ordered association list with
unique keys, as in Python. -/
inductive PyVal where
  | none : PyVal
  | bool (b : Bool) : PyVal
  | int (n : Int) : PyVal
  | float (val : Rat) (lit : String) : PyVal
  | str (s : String) : PyVal
  | list (xs : List PyVal) : PyVal
  | dict (entries : List (String × PyVal)) : PyVal

mutual
/-- Structural identity of embedded values, used only to derive decidable
equality of the embedding type.  This is NOT Python `==` (which is
order-insensitive on dicts and identifies numerically equal scalars such as
`True` and `1`): the embedding of Python `==` is `pyEq` below. -/
def PyVal.beq : PyVal → PyVal → Bool
  | .none, .none => true
  | .bool a, .bool b => a == b
  | .int a, .int b => a == b
  | .float p a, .float q b => decide (p = q) && a == b
  | .str a, .str b => a == b
  | .list xs, .list ys => PyVal.beqList xs ys
  | .dict es, .dict fs => PyVal.beqDict es fs
  | _, _ => false

/-- Elementwise equality of value lists. -/
def PyVal.beqList : List PyVal → List PyVal → Bool
  | [], [] => true
  | x :: xs, y :: ys => PyVal.beq x y && PyVal.beqList xs ys
  | _, _ => false

/-- Entrywise equality of dict entry lists. -/
def PyVal.beqDict : List (String × PyVal) → List (String × PyVal) → Bool
  | [], [] => true
  | (k, v) :: es, (l, w) :: fs =>
      k == l && PyVal.beq v w && PyVal.beqDict es fs
  | _, _ => false
end

mutual
/-- Soundness of `PyVal.beq` for propositional equality. -/
def PyVal.eq_of_beq : {a b : PyVal} → PyVal.beq a b = true → a = b
  | .none, .none, _ => rfl
  | .bool _, .bool _, h => by
      simp only [PyVal.beq, beq_iff_eq] at h; exact congrArg _ h
  | .int _, .int _, h => by
      simp only [PyVal.beq, beq_iff_eq] at h; exact congrArg _ h
  | .float _ _, .float _ _, h => by
      simp only [PyVal.beq, Bool.and_eq_true, decide_eq_true_eq, beq_iff_eq] at h
      rw [h.1, h.2]
  | .str _, .str _, h => by
      simp only [PyVal.beq, beq_iff_eq] at h; exact congrArg _ h
  | .list _, .list _, h => congrArg _ (PyVal.eqList_of_beqList h)
  | .dict _, .dict _, h => congrArg _ (PyVal.eqDict_of_beqDict h)

/-- Soundness of `PyVal.beqList` for propositional equality. -/
def PyVal.eqList_of_beqList : {xs ys : List PyVal} → PyVal.beqList xs ys = true → xs = ys
  | [], [], _ => rfl
  | x :: _, y :: _, h => by
      simp only [PyVal.beqList, Bool.and_eq_true] at h
      exact congrArg₂ _ (PyVal.eq_of_beq h.1) (PyVal.eqList_of_beqList h.2)

/-- Soundness of `PyVal.beqDict` for propositional equality. -/
def PyVal.eqDict_of_beqDict :
    {es fs : List (String × PyVal)} → PyVal.beqDict es fs = true → es = fs
  | [], [], _ => rfl
  | (k, v) :: _, (l, w) :: _, h => by
      simp only [PyVal.beqDict, Bool.and_eq_true, beq_iff_eq] at h
      have hkv : (k, v) = (l, w) := by
        rw [h.1.1]; exact congrArg _ (PyVal.eq_of_beq h.1.2)
      exact congrArg₂ _ hkv (PyVal.eqDict_of_beqDict h.2)
end

mutual
/-- Reflexivity of `PyVal.beq`. -/
def PyVal.beq_refl : (a : PyVal) → PyVal.beq a a = true
  | .none => rfl
  | .bool _ => by simp [PyVal.beq]
  | .int _ => by simp [PyVal.beq]
  | .float _ _ => by simp [PyVal.beq]
  | .str _ => by simp [PyVal.beq]
  | .list xs => PyVal.beqList_refl xs
  | .dict es => PyVal.beqDict_refl es

/-- Reflexivity of `PyVal.beqList`. -/
def PyVal.beqList_refl : (xs : List PyVal) → PyVal.beqList xs xs = true
  | [] => rfl
  | x :: xs => by
      simp only [PyVal.beqList, Bool.and_eq_true]
      exact ⟨PyVal.beq_refl x, PyVal.beqList_refl xs⟩

/-- Reflexivity of `PyVal.beqDict`. -/
def PyVal.beqDict_refl : (es : List (String × PyVal)) → PyVal.beqDict es es = true
  | [] => rfl
  | (k, v) :: es => by
      simp only [PyVal.beqDict, Bool.and_eq_true, beq_self_eq_true]
      exact ⟨⟨trivial, PyVal.beq_refl v⟩, PyVal.beqDict_refl es⟩
end

instance : DecidableEq PyVal := fun a b =>
  if h : PyVal.beq a b = true then isTrue (PyVal.eq_of_beq h)
  else isFalse (fun he => h (he ▸ PyVal.beq_refl a))

/-- The Python `v is None` test. -/
def PyVal.isNone : PyVal → Bool
  | .none => true
  | _ => false

/-- An ASCII single-quote character, as used by Python `repr` of strings. -/
def pyQuote : String := String.singleton (Char.ofNat 39)

mutual
/-- The Python `repr` of a value (used by `str` on lists/dicts). -/
def pyrepr : PyVal → String
  | .none => "None"
  | .bool true => "True"
  | .bool false => "False"
  | .int n => toString n
  | .float _ lit => lit
  | .str s => pyQuote ++ s ++ pyQuote
  | .list xs => "[" ++ String.intercalate ", " (pyreprList xs) ++ "]"
  | .dict es => "\x7b" ++ String.intercalate ", " (pyreprDict es) ++ "\x7d"

/-- Python `repr` of each element of a list. -/
def pyreprList : List PyVal → List String
  | [] => []
  | v :: vs => pyrepr v :: pyreprList vs

/-- Python `repr` of each entry of a dict. -/
def pyreprDict : List (String × PyVal) → List String
  | [] => []
  | (k, v) :: es => (pyQuote ++ k ++ pyQuote ++ ": " ++ pyrepr v) :: pyreprDict es
end

/-- The Python `str()` of a value: identity on strings, `repr` otherwise
(`str(None) = "None"`, `str(True) = "True"`, numbers print their literal). -/
def pystr : PyVal → String
  | .str s => s
  | v => pyrepr v

/-- The test `value.keys() == \x7b"key", "value"\x7d` of `_format_value`
(Python compares the key view with a set, i.e. set equality of the keys). -/
def keysEqKV (es : List (String × PyVal)) : Bool :=
  let ks := es.map Prod.fst
  ks.all (fun k => k == "key" || k == "value") && ks.contains "key"
    && ks.contains "value"

mutual
/-- Structural size of a value; an upper bound on the recursion depth of
`_format_value`, used as fuel. -/
def pysize : PyVal → Nat
  | .list xs => pysizeList xs + 1
  | .dict es => pysizeDict es + 1
  | _ => 1

/-- Summed size of list elements. -/
def pysizeList : List PyVal → Nat
  | [] => 0
  | v :: vs => pysize v + pysizeList vs + 1

/-- Summed size of dict values. -/
def pysizeDict : List (String × PyVal) → Nat
  | [] => 0
  | (_, v) :: es => pysize v + pysizeDict es + 1
end

/-- Option-valued traversal of a list, expressing a Python list comprehension
whose body may fail: all-or-nothing. -/
def mapMOpt {α β : Type} (f : α → Option β) : List α → Option (List β)
  | [] => some []
  | x :: xs =>
      match f x, mapMOpt f xs with
      | some y, some ys => some (y :: ys)
      | _, _ => Option.none

/-- Fuelled embedding of `ReverseTranspiler._format_value`
(src/rts/core/rev_tran.py).  `Option.none` signals either exhausted fuel or a
`KeyError` on the guarded `value["key"]` / `value["value"]` subscripts; both
are proven unreachable for fuel `pysize v` (see `formatValueF_isSome`).
- lists: elements that are `None` are dropped, the rest are recursively
  formatted and joined with `"; "` after Python `str()`;
- dicts whose key set is exactly `\x7b"key", "value"\x7d`: formatted as
  `f"\x7bvalue[key]\x7d=\x7bformat(value[value])\x7d"`;
- other dicts: entries formatted as `f"\x7bk\x7d=\x7bformat(v)\x7d"` joined
  with `";"`;
- scalars: returned unchanged. -/
def formatValueF : Nat → PyVal → Option PyVal
  | 0, _ => Option.none
  | n+1, v =>
    match v with
    | PyVal.list xs =>
        (mapMOpt (formatValueF n) (xs.filter (fun x => !x.isNone))).map
          (fun fs => PyVal.str (String.intercalate "; " (fs.map pystr)))
    | PyVal.dict es =>
        if keysEqKV es then
          (List.lookup "key" es).bind (fun kv =>
            (List.lookup "value" es).bind (fun vv =>
              (formatValueF n vv).map
                (fun fv => PyVal.str (pystr kv ++ "=" ++ pystr fv))))
        else
          (mapMOpt (fun e =>
              (formatValueF n e.2).map (fun fv => e.1 ++ "=" ++ pystr fv)) es).map
            (fun parts => PyVal.str (String.intercalate ";" parts))
    | scalar => some scalar

/-- Total embedding of `_format_value`: run the fuelled version with enough
fuel.  The fallback value is never used (`formatValueF_pysize_isSome`). -/
def formatValue (v : PyVal) : PyVal := (formatValueF (pysize v) v).getD v

instance {ε α : Type} [DecidableEq ε] [DecidableEq α] : DecidableEq (Except ε α) :=
  fun x y =>
  match x, y with
  | .ok a, .ok b =>
      if h : a = b then isTrue (by rw [h])
      else isFalse (by intro he; cases he; exact h rfl)
  | .error e, .error f =>
      if h : e = f then isTrue (by rw [h])
      else isFalse (by intro he; cases he; exact h rfl)
  | .ok _, .error _ => isFalse (by intro h; cases h)
  | .error _, .ok _ => isFalse (by intro h; cases h)

/-- Python `list.insert(i, x)` for a non-negative index: insert before index
`i`, clamping to the end when `i` is at least the length of the list. -/
def pyInsert {α : Type} : Nat → α → List α → List α
  | _, x, [] => [x]
  | 0, x, l => x :: l
  | n+1, x, a :: l => a :: pyInsert n x l

/-- One step of the special-header loop of `reverse_transpile`
(lines 237-240): when `special` occurs in `hs`, remove its first occurrence
(Python `list.remove`) and insert it at index `idx`; otherwise leave `hs`
alone (only a log message is emitted). -/
def promoteHeader (hs : List String) (idx : Nat) (special : String) : List String :=
  if hs.contains special then pyInsert idx special (hs.erase special) else hs

/-- The full header reordering of `reverse_transpile`:
`for idx, special_header in enumerate(["alias", "accession"])`. -/
def reorderHeaders (hs : List String) : List String :=
  promoteHeader (promoteHeader hs 0 "alias") 1 "accession"

/-- Configuration for sheet names (class `SheetNameConfig`): mapping of
worksheet names to display names. -/
structure SheetNameConfig where
  sheet_names : List (String × String)
  deriving DecidableEq

/-- A row of a content property: a Python dict from column name to value. -/
abbrev PyRow := List (String × PyVal)

/-- Modelled from the spec: the `StudyMetadata` document entity (its class is
not present under src/ - `models.py` only retains an older `Metadata` model -
but every core routine consumes it).  Per spec §3: `study_accession` is the
string store key and `content` is an ordered mapping from property name to an
ordered sequence of rows, each row a mapping from column name to a
scalar/list/nested-map value. -/
structure StudyMetadata where
  study_accession : String
  content : List (String × List PyRow)
  deriving DecidableEq

/-- The numeric value of a scalar under the Python numeric tower: booleans
are ints (`True` is `1`, `False` is `0`), ints embed exactly into the
rationals, and a finite float is its exact rational value.  `Option.none` for
non-numeric values. -/
def pyNumVal : PyVal → Option Rat
  | .bool b => some (if b then 1 else 0)
  | .int n => some (n : Rat)
  | .float q _ => some q
  | _ => Option.none

mutual
/-- Embedding of Python `==` on JSON-like data (the comparison
`existing_metadata.model_dump() == study_metadata.model_dump()` performs on
values): `None` equals only `None`; booleans, ints and floats compare
numerically across types (`True == 1`, `1 == 1.0`); strings compare by value;
lists compare elementwise; dicts compare by key set and per-key value,
irrespective of insertion order (a Python dict has unique keys: `d1 == d2`
iff the lengths agree and every key of `d1` maps to an equal value in `d2`).
Any other combination is unequal. -/
def pyEq : PyVal → PyVal → Bool
  | .none, .none => true
  | .str a, .str b => a == b
  | .list xs, .list ys => pyEqList xs ys
  | .dict es, .dict fs => es.length == fs.length && pyEqDictSub es fs
  | a, b =>
      match pyNumVal a, pyNumVal b with
      | some p, some q => decide (p = q)
      | _, _ => false

/-- Elementwise Python `==` on lists (unequal lengths are unequal). -/
def pyEqList : List PyVal → List PyVal → Bool
  | [], [] => true
  | x :: xs, y :: ys => pyEq x y && pyEqList xs ys
  | _, _ => false

/-- Every key of the first dict maps to a `pyEq`-equal value in the second. -/
def pyEqDictSub : List (String × PyVal) → List (String × PyVal) → Bool
  | [], _ => true
  | (k, v) :: es, fs =>
      (match List.lookup k fs with
       | some w => pyEq v w
       | Option.none => false) && pyEqDictSub es fs
end

/-- Python `==` on one content row (a dict from column name to value). -/
def pyEqRow (r1 r2 : PyRow) : Bool :=
  r1.length == r2.length && r1.all (fun e =>
    match List.lookup e.1 r2 with
    | some w => pyEq e.2 w
    | Option.none => false)

/-- Python `==` on row sequences (lists compare elementwise). -/
def pyEqRows : List PyRow → List PyRow → Bool
  | [], [] => true
  | r :: rs, t :: ts => pyEqRow r t && pyEqRows rs ts
  | _, _ => false

/-- Python `==` on the `content` mapping (a dict from property name to row
sequence): key sets agree and each property maps to `==`-equal rows. -/
def pyEqContent (c1 c2 : List (String × List PyRow)) : Bool :=
  c1.length == c2.length && c1.all (fun pr =>
    match List.lookup pr.1 c2 with
    | some rows2 => pyEqRows pr.2 rows2
    | Option.none => false)

/-- Embedding of `existing_metadata.model_dump() == study_metadata.model_dump()`
(rev_tran.py line 97): Python dict equality over the dumped fields, i.e. the
accessions are equal and the `content` dicts are Python-`==`-equal. -/
def pyEqSM (a b : StudyMetadata) : Bool :=
  a.study_accession == b.study_accession && pyEqContent a.content b.content

/-- The Python test `isinstance(v, bool)`. -/
def pyIsInstBool : PyVal → Bool
  | .bool _ => true
  | _ => false

/-- The Python test `isinstance(v, int)`; note that Python `bool` is a subclass of
`int`, so booleans satisfy this test. -/
def pyIsInstInt : PyVal → Bool
  | .int _ => true
  | .bool _ => true
  | _ => false

/-- The Python test `isinstance(v, float | int)` (booleans included, being ints). -/
def pyIsInstIntOrFloat : PyVal → Bool
  | .float _ _ => true
  | v => pyIsInstInt v

/-- The number format assigned to a data cell by `reverse_transpile`
(lines 272-273): set only when
`isinstance(value, float | int) and not isinstance(value, bool)`, to `"0"`
when `isinstance(value, int)` and `"0.00"` otherwise. -/
def numberFormatFor (v : PyVal) : Option String :=
  if pyIsInstIntOrFloat v && !pyIsInstBool v then
    some (if pyIsInstInt v then "0" else "0.00")
  else Option.none

/-- The raw (pre-formatting) value of a data cell:
`value = row_data.get(header)`, which is `None` for a missing key. -/
def rawCellValue (rowData : PyRow) (header : String) : PyVal :=
  (List.lookup header rowData).getD PyVal.none

/-- A written worksheet cell: its value and its number format, if any. -/
structure CellSpec where
  value : PyVal
  numberFormat : Option String
  deriving DecidableEq

/-- One data cell as written by `reverse_transpile` (lines 264-273). -/
def makeCell (rowData : PyRow) (header : String) : CellSpec :=
  let value := rawCellValue rowData header
  { value := formatValue value, numberFormat := numberFormatFor value }

/-- A worksheet: its title, its (bold) header row, and its data rows. -/
structure Sheet where
  title : String
  header : List String
  rows : List (List CellSpec)
  deriving DecidableEq

/-- A workbook: its sheets, in creation order. -/
structure Workbook where
  sheets : List Sheet
  deriving DecidableEq

/-- The per-property sheet construction of `reverse_transpile` (lines
230-273), for a property with a non-empty `items`: headers are the keys of
the FIRST item (line 234), reordered by the special-header loop; one data row
per item. -/
def buildSheet (propertyName : String) (items : List PyRow) : Sheet :=
  let columnHeaders := reorderHeaders ((items.headD []).map Prod.fst)
  { title := propertyName
    header := columnHeaders
    rows := items.map (fun rowData => columnHeaders.map (makeCell rowData)) }

/-- The `SheetNamingError` of `ReverseTranspilerPort`: raised when there is no
configured display value for a sheet name. -/
structure SheetNamingError where
  sheet_name : String
  deriving DecidableEq

/-- The `MetadataNotFoundError` of `ReverseTranspilerPort`: raised when
metadata (or the workbook) cannot be retrieved; carries the accession. -/
structure MetadataNotFoundError where
  study_accession : String
  deriving DecidableEq

/-- Embedding of `ReverseTranspiler._rename_sheets`: every sheet title must be a key of the
configured `sheet_names` mapping, else `SheetNamingError` is raised; matching
titles are replaced by the configured display value. -/
def renameSheets (config : SheetNameConfig) :
    List Sheet → Except SheetNamingError (List Sheet)
  | [] => Except.ok []
  | sheet :: rest =>
      match List.lookup sheet.title config.sheet_names with
      | Option.none => Except.error ⟨sheet.title⟩
      | some newTitle =>
          (renameSheets config rest).map
            (fun rs => { sheet with title := newTitle } :: rs)

/-- Embedding of `ReverseTranspiler.reverse_transpile` (lines 202-278): one sheet per
property of `content` with a non-empty row sequence (`if not items: continue`,
line 227), then `_rename_sheets` over the whole workbook. -/
def reverseTranspile (config : SheetNameConfig) (study_metadata : StudyMetadata) :
    Except SheetNamingError Workbook :=
  let sheets := study_metadata.content.filterMap (fun pr =>
    if pr.2.isEmpty then Option.none else some (buildSheet pr.1 pr.2))
  (renameSheets config sheets).map Workbook.mk

/-- The store-level not-found error (`ResourceNotFoundError` of hexkit /
`rts.ports.outbound.dao`), carrying the missing id. -/
structure ResourceNotFoundError where
  id_ : String
  deriving DecidableEq

/-- Joint state of the two keyed stores: the metadata document store and the
workbook (blob) store, both keyed by study accession. -/
structure StoreState where
  metadata : String → Option StudyMetadata
  workbooks : String → Option Workbook

/-- Embedding of `metadata_dao.get_by_id`: the stored document, or `ResourceNotFoundError`
when the key is absent. -/
def daoGetById (s : StoreState) (accession : String) :
    Except ResourceNotFoundError StudyMetadata :=
  match s.metadata accession with
  | some m => Except.ok m
  | Option.none => Except.error ⟨accession⟩

/-- Embedding of `metadata_dao.upsert`: replace semantics, keyed by `study_accession`. -/
def daoUpsertMetadata (s : StoreState) (sm : StudyMetadata) : StoreState :=
  { s with metadata := fun a =>
      if a = sm.study_accession then some sm else s.metadata a }

/-- Embedding of `metadata_dao.delete`: removes the document, raising
`ResourceNotFoundError` when the key is absent. -/
def daoDeleteMetadata (s : StoreState) (accession : String) :
    Except ResourceNotFoundError StoreState :=
  match s.metadata accession with
  | some _ =>
      Except.ok { s with metadata := fun a =>
        if a = accession then Option.none else s.metadata a }
  | Option.none => Except.error ⟨accession⟩

/-- Embedding of `WorkbookDao.upsert` (src/rts/adapters/outbound/dao.py): delete any
pre-existing file, then insert; net effect is replace, keyed by accession.
The stored bytes are modelled by the workbook they serialize. -/
def workbookDaoUpsert (s : StoreState) (accession : String) (wb : Workbook) :
    StoreState :=
  { s with workbooks := fun a => if a = accession then some wb else s.workbooks a }

/-- Embedding of `WorkbookDao.find`: the stored workbook bytes, or `ResourceNotFoundError`
when no file exists for the accession. -/
def workbookDaoFind (s : StoreState) (accession : String) :
    Except ResourceNotFoundError Workbook :=
  match s.workbooks accession with
  | some wb => Except.ok wb
  | Option.none => Except.error ⟨accession⟩

/-- Embedding of `WorkbookDao.delete`: GridFS does not signal deletion of a non-existent
file, so this is total and never raises (dao.py lines 97-103). -/
def workbookDaoDelete (s : StoreState) (accession : String) : StoreState :=
  { s with workbooks := fun a =>
      if a = accession then Option.none else s.workbooks a }

/-- Embedding of `ReverseTranspiler.upsert_metadata` (lines 83-123): fetch the existing
document (not-found means create); when the `model_dump` of the stored document
equals the incoming one, skip everything; otherwise upsert the metadata, then
transpile, then upsert the workbook.  Returns the final store state, paired
with the `SheetNamingError` when transpilation raised (which in the code
happens after the metadata write and before the workbook write). -/
def upsertMetadata (config : SheetNameConfig) (s : StoreState)
    (study_metadata : StudyMetadata) : StoreState × Option SheetNamingError :=
  let accession := study_metadata.study_accession
  let doUpsert : Bool :=
    match daoGetById s accession with
    | Except.ok existing => !(pyEqSM existing study_metadata)
    | Except.error _ => true
  if doUpsert then
    let s1 := daoUpsertMetadata s study_metadata
    match reverseTranspile config study_metadata with
    | Except.error e => (s1, some e)
    | Except.ok wb => (workbookDaoUpsert s1 accession wb, Option.none)
  else (s, Option.none)

/-- Embedding of `ReverseTranspiler.retrieve_metadata` (lines 125-136): the stored
document, with the store-level not-found translated to
`MetadataNotFoundError` carrying the accession. -/
def retrieveMetadata (s : StoreState) (study_accession : String) :
    Except MetadataNotFoundError StudyMetadata :=
  match daoGetById s study_accession with
  | Except.ok m => Except.ok m
  | Except.error _ => Except.error ⟨study_accession⟩

/-- Embedding of `ReverseTranspiler.retrieve_workbook` (lines 154-170): the stored workbook
bytes, with the store-level not-found translated to `MetadataNotFoundError`
carrying the accession. -/
def retrieveWorkbook (s : StoreState) (study_accession : String) :
    Except MetadataNotFoundError Workbook :=
  match workbookDaoFind s study_accession with
  | Except.ok wb => Except.ok wb
  | Except.error _ => Except.error ⟨study_accession⟩

/-- Embedding of `ReverseTranspiler.delete_metadata` (lines 138-152): attempt the metadata
delete, swallowing the store-level not-found, then unconditionally delete the
workbook (which never raises). -/
def deleteMetadata (s : StoreState) (study_accession : String) : StoreState :=
  let s1 :=
    match daoDeleteMetadata s study_accession with
    | Except.ok s2 => s2
    | Except.error _ => s
  workbookDaoDelete s1 study_accession

/-! ### Concrete instances used by the claim theorems -/

/-- Example sheet-name configuration (as in the test fixtures of the repository:
`samples` is displayed as `Sample`, `studies` as `Study`). -/
def cfgEx : SheetNameConfig := ⟨[("samples", "Sample"), ("studies", "Study")]⟩

/-- The column-union acceptance input: two rows for `samples`, the first with
keys `accession, alias, col1`, the second with keys `accession, alias, col2`
(the data of the unit test `test_column_aggregation` of the repository). -/
def smColumnUnion : StudyMetadata :=
  ⟨"my_study",
   [("samples",
     [[("accession", .str "abc123"), ("alias", .str "sample1"),
       ("col1", .str "testval")],
      [("accession", .str "abc123"), ("alias", .str "sample1"),
       ("col2", .str "testval2")]])]⟩

/-- A document whose only property name, `bald_knobber`, is not configured in
`cfgEx` (the name used by the unit test `test_sheet_naming` of the repository). -/
def smUnconfiguredSheet : StudyMetadata :=
  ⟨"acc1", [("bald_knobber", [[("alias", .str "x")]])]⟩

/-- A document whose single row has an `accession` column but no `alias`. -/
def smNoAlias : StudyMetadata :=
  ⟨"acc3", [("samples", [[("col1", .str "v"), ("accession", .str "a1")]])]⟩

/-- A minimal well-configured document with one property and one row. -/
def smSingle : StudyMetadata :=
  ⟨"acc1", [("samples", [[("alias", .str "a1")]])]⟩

/-- The workbook `reverse_transpile` produces for `smSingle`. -/
def wbSingle : Workbook :=
  ⟨[⟨"Sample", ["alias"], [[⟨PyVal.str "a1", Option.none⟩]]⟩]⟩

/-- A document all of whose properties carry an empty row sequence. -/
def smAllEmpty : StudyMetadata :=
  ⟨"acc0", [("samples", []), ("studies", [])]⟩

/-- Both stores empty. -/
def emptyStore : StoreState := ⟨fun _ => Option.none, fun _ => Option.none⟩

/-- A store holding exactly the `smSingle` document (and no workbook). -/
def storeWithSingle : StoreState :=
  ⟨fun a => if a = "acc1" then some smSingle else Option.none, fun _ => Option.none⟩

/-- A document with a two-key row: `alias` then `col9` holding the int `1`. -/
def smTwoKeys : StudyMetadata :=
  ⟨"acc2", [("samples", [[("alias", .str "a1"), ("col9", .int 1)]])]⟩

/-- The same document up to Python `==`: row keys in the opposite insertion
order and the boolean `True` in place of the int `1`. -/
def smTwoKeysReordered : StudyMetadata :=
  ⟨"acc2", [("samples", [[("col9", .bool true), ("alias", .str "a1")]])]⟩

/-- A store holding `smTwoKeysReordered` (and no workbook). -/
def storeWithTwoKeys : StoreState :=
  ⟨fun a => if a = "acc2" then some smTwoKeysReordered else Option.none,
   fun _ => Option.none⟩

/-! ### Supporting lemmas: `_format_value` terminates within `pysize` fuel -/

theorem mapMOpt_eq_map {α β : Type} (f : α → Option β) (g : α → β) :
    ∀ l : List α, (∀ x ∈ l, f x = some (g x)) → mapMOpt f l = some (l.map g)
  | [], _ => rfl
  | x :: xs, h => by
      have hx := h x (List.mem_cons_self x xs)
      have hxs := mapMOpt_eq_map f g xs (fun y hy => h y (List.mem_cons_of_mem x hy))
      simp [mapMOpt, hx, hxs]

theorem mapMOpt_congr {α β : Type} (f g : α → Option β) :
    ∀ l : List α, (∀ x ∈ l, f x = g x) → mapMOpt f l = mapMOpt g l
  | [], _ => rfl
  | x :: xs, h => by
      have hx := h x (List.mem_cons_self x xs)
      have hxs := mapMOpt_congr f g xs (fun y hy => h y (List.mem_cons_of_mem x hy))
      simp only [mapMOpt, hx, hxs]

theorem mapMOpt_isSome {α β : Type} (f : α → Option β) :
    ∀ l : List α, (∀ x ∈ l, (f x).isSome = true) → (mapMOpt f l).isSome = true
  | [], _ => rfl
  | x :: xs, h => by
      have hx := h x (List.mem_cons_self x xs)
      have hxs := mapMOpt_isSome f xs (fun y hy => h y (List.mem_cons_of_mem x hy))
      obtain ⟨y, hy⟩ := Option.isSome_iff_exists.mp hx
      obtain ⟨ys, hys⟩ := Option.isSome_iff_exists.mp hxs
      simp [mapMOpt, hy, hys]

theorem pysize_pos (v : PyVal) : 1 ≤ pysize v := by
  cases v <;> simp [pysize]

theorem pysize_le_of_mem {xs : List PyVal} {v : PyVal} (h : v ∈ xs) :
    pysize v ≤ pysizeList xs := by
  induction xs with
  | nil => cases h
  | cons x xs ih =>
      rcases List.mem_cons.mp h with rfl | h
      · simp [pysizeList]; omega
      · have := ih h; simp [pysizeList]; omega

theorem pysize_snd_le_of_mem {es : List (String × PyVal)} {e : String × PyVal}
    (h : e ∈ es) : pysize e.2 ≤ pysizeDict es := by
  induction es with
  | nil => cases h
  | cons f es ih =>
      rcases List.mem_cons.mp h with rfl | h
      · cases e; simp [pysizeDict]; omega
      · have := ih h; cases f; simp [pysizeDict]; omega

theorem pysize_lookup_le {es : List (String × PyVal)} {k : String} {v : PyVal}
    (h : List.lookup k es = some v) : pysize v ≤ pysizeDict es := by
  induction es with
  | nil => simp [List.lookup] at h
  | cons e es ih =>
      obtain ⟨a, b⟩ := e
      rw [List.lookup] at h
      by_cases hk : k = a
      · simp [hk] at h
        subst h
        simp [pysizeDict]; omega
      · simp [beq_eq_false_iff_ne.mpr hk] at h
        have := ih h
        simp [pysizeDict]; omega

theorem lookup_isSome_of_keys_contains {es : List (String × PyVal)} {k : String}
    (h : (es.map Prod.fst).contains k = true) : (List.lookup k es).isSome = true := by
  induction es with
  | nil => simp at h
  | cons e es ih =>
      obtain ⟨a, b⟩ := e
      rw [List.lookup]
      by_cases hk : k = a
      · simp [hk]
      · simp only [beq_eq_false_iff_ne.mpr hk]
        simp only [List.map_cons, List.contains_cons,
          beq_eq_false_iff_ne.mpr hk, Bool.false_or] at h
        exact ih h

theorem keysEqKV_lookups {es : List (String × PyVal)} (h : keysEqKV es = true) :
    (List.lookup "key" es).isSome = true ∧ (List.lookup "value" es).isSome = true := by
  rw [keysEqKV] at h
  simp only [Bool.and_eq_true] at h
  exact ⟨lookup_isSome_of_keys_contains h.1.2, lookup_isSome_of_keys_contains h.2⟩

theorem formatValueF_isSome :
    ∀ (n : Nat) (v : PyVal), pysize v ≤ n → (formatValueF n v).isSome = true := by
  intro n
  induction n with
  | zero => intro v hv; have := pysize_pos v; omega
  | succ n ih =>
      intro v hv
      cases v with
      | list xs =>
          rw [formatValueF]
          rw [Option.isSome_map']
          apply mapMOpt_isSome
          intro x hx
          apply ih
          have h1 : pysize x ≤ pysizeList xs :=
            pysize_le_of_mem (List.mem_of_mem_filter hx)
          have h2 : pysize (PyVal.list xs) ≤ n + 1 := hv
          rw [pysize] at h2
          omega
      | dict es =>
          rw [formatValueF]
          by_cases hkv : keysEqKV es = true
          · obtain ⟨hk, hv'⟩ := keysEqKV_lookups hkv
            obtain ⟨kv, hkeq⟩ := Option.isSome_iff_exists.mp hk
            obtain ⟨vv, hveq⟩ := Option.isSome_iff_exists.mp hv'
            rw [if_pos hkv, hkeq, hveq]
            simp only [Option.some_bind]
            rw [Option.isSome_map']
            apply ih
            have h1 : pysize vv ≤ pysizeDict es := pysize_lookup_le hveq
            have h2 : pysize (PyVal.dict es) ≤ n + 1 := hv
            rw [pysize] at h2
            omega
          · rw [if_neg hkv]
            rw [Option.isSome_map']
            apply mapMOpt_isSome
            intro e he
            rw [Option.isSome_map']
            apply ih
            have h1 : pysize e.2 ≤ pysizeDict es := pysize_snd_le_of_mem he
            have h2 : pysize (PyVal.dict es) ≤ n + 1 := hv
            rw [pysize] at h2
            omega
      | none => rfl
      | bool b => rfl
      | int i => rfl
      | float q l => rfl
      | str s => rfl

theorem formatValueF_fuel_irrel :
    ∀ (n m : Nat) (v : PyVal), pysize v ≤ n → n ≤ m →
      formatValueF m v = formatValueF n v := by
  intro n
  induction n with
  | zero => intro m v hv _; have := pysize_pos v; omega
  | succ n ih =>
      intro m v hv hnm
      cases m with
      | zero => omega
      | succ m =>
          have hnm' : n ≤ m := by omega
          cases v with
          | list xs =>
              rw [formatValueF, formatValueF]
              congr 1
              apply mapMOpt_congr
              intro x hx
              apply ih m x _ hnm'
              have h1 : pysize x ≤ pysizeList xs :=
                pysize_le_of_mem (List.mem_of_mem_filter hx)
              have h2 : pysize (PyVal.list xs) ≤ n + 1 := hv
              rw [pysize] at h2
              omega
          | dict es =>
              rw [formatValueF, formatValueF]
              by_cases hkv : keysEqKV es = true
              · rw [if_pos hkv, if_pos hkv]
                cases hkeq : List.lookup "key" es with
                | none => rfl
                | some kv =>
                    cases hveq : List.lookup "value" es with
                    | none => rfl
                    | some vv =>
                        simp only [Option.some_bind]
                        congr 1
                        apply ih m vv _ hnm'
                        have h1 : pysize vv ≤ pysizeDict es := pysize_lookup_le hveq
                        have h2 : pysize (PyVal.dict es) ≤ n + 1 := hv
                        rw [pysize] at h2
                        omega
              · rw [if_neg hkv, if_neg hkv]
                congr 1
                apply mapMOpt_congr
                intro e he
                congr 1
                apply ih m e.2 _ hnm'
                have h1 : pysize e.2 ≤ pysizeDict es := pysize_snd_le_of_mem he
                have h2 : pysize (PyVal.dict es) ≤ n + 1 := hv
                rw [pysize] at h2
                omega
          | none => rfl
          | bool b => rfl
          | int i => rfl
          | float q l => rfl
          | str s => rfl

theorem formatValueF_eq_formatValue {n : Nat} {v : PyVal} (h : pysize v ≤ n) :
    formatValueF n v = some (formatValue v) := by
  have h1 : formatValueF n v = formatValueF (pysize v) v :=
    formatValueF_fuel_irrel (pysize v) n v le_rfl h
  have h2 := formatValueF_isSome (pysize v) v le_rfl
  obtain ⟨r, hr⟩ := Option.isSome_iff_exists.mp h2
  rw [formatValue, hr, h1, hr]
  rfl

theorem formatValue_list (xs : List PyVal) :
    formatValue (.list xs) = .str (String.intercalate "; "
      ((xs.filter (fun v => !v.isNone)).map (fun v => pystr (formatValue v)))) := by
  have hm : mapMOpt (formatValueF (pysizeList xs)) (xs.filter (fun v => !v.isNone))
      = some ((xs.filter (fun v => !v.isNone)).map formatValue) := by
    apply mapMOpt_eq_map
    intro x hx
    exact formatValueF_eq_formatValue
      (pysize_le_of_mem (List.mem_of_mem_filter hx))
  rw [formatValue]
  rw [show pysize (PyVal.list xs) = pysizeList xs + 1 from rfl]
  rw [formatValueF, hm]
  simp [List.map_map]
  rfl

theorem formatValue_dict_kv {es : List (String × PyVal)} {kv vv : PyVal}
    (h : keysEqKV es = true) (hk : List.lookup "key" es = some kv)
    (hv : List.lookup "value" es = some vv) :
    formatValue (.dict es) = .str (pystr kv ++ "=" ++ pystr (formatValue vv)) := by
  rw [formatValue]
  rw [show pysize (PyVal.dict es) = pysizeDict es + 1 from rfl]
  rw [formatValueF]
  rw [if_pos h, hk, hv]
  simp only [Option.some_bind]
  rw [formatValueF_eq_formatValue (pysize_lookup_le hv)]
  rfl

theorem formatValue_dict_other {es : List (String × PyVal)}
    (h : keysEqKV es = false) :
    formatValue (.dict es) = .str (String.intercalate ";"
      (es.map (fun e => e.1 ++ "=" ++ pystr (formatValue e.2)))) := by
  have hm : mapMOpt (fun e => (formatValueF (pysizeDict es) e.2).map
        (fun fv => e.1 ++ "=" ++ pystr fv)) es
      = some (es.map (fun e => e.1 ++ "=" ++ pystr (formatValue e.2))) := by
    apply mapMOpt_eq_map
    intro e he
    rw [formatValueF_eq_formatValue (pysize_snd_le_of_mem he)]
    rfl
  rw [formatValue]
  rw [show pysize (PyVal.dict es) = pysizeDict es + 1 from rfl]
  rw [formatValueF]
  rw [if_neg (by simp [h]), hm]
  rfl

/-! ### Supporting lemmas: header reordering -/

theorem contains_iff_mem {l : List String} {a : String} :
    l.contains a = true ↔ a ∈ l := List.elem_iff

theorem pyInsert_zero {α : Type} (x : α) (l : List α) : pyInsert 0 x l = x :: l := by
  cases l <;> rfl

theorem pyInsert_one_cons {α : Type} (x a : α) (l : List α) :
    pyInsert 1 x (a :: l) = a :: x :: l := by
  rw [show pyInsert 1 x (a :: l) = a :: pyInsert 0 x l from rfl, pyInsert_zero]

theorem mem_pyInsert {α : Type} (a x : α) :
    ∀ (i : Nat) (l : List α), a ∈ pyInsert i x l ↔ a = x ∨ a ∈ l := by
  intro i l
  induction l generalizing i with
  | nil => cases i <;> simp [pyInsert]
  | cons b l ih =>
      cases i with
      | zero => simp [pyInsert]
      | succ i =>
          rw [pyInsert]
          simp only [List.mem_cons, ih]
          tauto

theorem filter_pyInsert {α : Type} (p : α → Bool) {x : α} (hx : p x = false) :
    ∀ (i : Nat) (l : List α), (pyInsert i x l).filter p = l.filter p := by
  intro i l
  induction l generalizing i with
  | nil => cases i <;> simp [pyInsert, List.filter, hx]
  | cons b l ih =>
      cases i with
      | zero => simp [pyInsert, List.filter, hx]
      | succ i =>
          rw [pyInsert]
          cases hb : p b <;> simp [List.filter_cons, hb, ih]

theorem filter_erase_of_neg {α : Type} [DecidableEq α] (p : α → Bool) {x : α}
    (hx : p x = false) :
    ∀ l : List α, (l.erase x).filter p = l.filter p := by
  intro l
  induction l with
  | nil => rfl
  | cons b l ih =>
      by_cases hb : b = x
      · subst hb
        rw [List.erase_cons_head]
        simp [List.filter_cons, hx]
      · rw [List.erase_cons_tail (by simpa using hb)]
        cases hpb : p b <;> simp [List.filter_cons, hpb, ih]

/-- The promotion loop with `"alias"` present: the reordered headers start
with `"alias"`, and with `"accession"` right after it when it occurs too. -/
theorem reorderHeaders_alias_mem {hs : List String} (h : "alias" ∈ hs) :
    ("accession" ∈ hs →
      reorderHeaders hs =
        "alias" :: "accession" :: ((hs.erase "alias").erase "accession"))
    ∧ ("accession" ∉ hs → reorderHeaders hs = "alias" :: hs.erase "alias") := by
  have h1 : promoteHeader hs 0 "alias" = "alias" :: hs.erase "alias" := by
    rw [promoteHeader, if_pos (contains_iff_mem.mpr h), pyInsert_zero]
  constructor
  · intro hacc
    have hacc' : "accession" ∈ "alias" :: hs.erase "alias" := by
      right
      exact (List.mem_erase_of_ne (by decide)).mpr hacc
    rw [reorderHeaders, h1, promoteHeader, if_pos (contains_iff_mem.mpr hacc')]
    rw [List.erase_cons_tail (by decide)]
    rw [pyInsert_one_cons]
  · intro hacc
    have hacc' : "accession" ∉ "alias" :: hs.erase "alias" := by
      intro hmem
      rcases List.mem_cons.mp hmem with heq | hmem
      · exact absurd heq (by decide)
      · exact hacc (List.mem_of_mem_erase hmem)
    rw [reorderHeaders, h1, promoteHeader,
      if_neg (by simp [contains_iff_mem, hacc'])]

/-- The promotion loop with `"alias"` absent: `"accession"`, when present, is
inserted at index 1 of the alias-free header list (not index 0). -/
theorem reorderHeaders_no_alias {hs : List String} (h : "alias" ∉ hs) :
    ("accession" ∈ hs →
      reorderHeaders hs = pyInsert 1 "accession" (hs.erase "accession"))
    ∧ ("accession" ∉ hs → reorderHeaders hs = hs) := by
  have h1 : promoteHeader hs 0 "alias" = hs := by
    rw [promoteHeader, if_neg (by simp [contains_iff_mem, h])]
  constructor
  · intro hacc
    rw [reorderHeaders, h1, promoteHeader, if_pos (contains_iff_mem.mpr hacc)]
  · intro hacc
    rw [reorderHeaders, h1, promoteHeader,
      if_neg (by simp [contains_iff_mem, hacc])]

/-- Columns other than `alias` and `accession` keep their relative order. -/
theorem reorderHeaders_filter (hs : List String) :
    (reorderHeaders hs).filter (fun h => !(h == "alias" || h == "accession"))
      = hs.filter (fun h => !(h == "alias" || h == "accession")) := by
  have hstep : ∀ (l : List String) (idx : Nat) (sp : String),
      (!(sp == "alias" || sp == "accession")) = false →
      (promoteHeader l idx sp).filter (fun h => !(h == "alias" || h == "accession"))
        = l.filter (fun h => !(h == "alias" || h == "accession")) := by
    intro l idx sp hsp
    rw [promoteHeader]
    by_cases hc : l.contains sp = true
    · rw [if_pos hc,
        filter_pyInsert (fun h => !(h == "alias" || h == "accession")) hsp,
        filter_erase_of_neg (fun h => !(h == "alias" || h == "accession")) hsp]
    · rw [if_neg hc]
  rw [reorderHeaders, hstep _ 1 "accession" (by decide), hstep _ 0 "alias" (by decide)]

/-! ### Supporting lemmas: sheet renaming and sheet counts -/

theorem renameSheets_length (config : SheetNameConfig) :
    ∀ {l rs : List Sheet}, renameSheets config l = Except.ok rs →
      rs.length = l.length := by
  intro l
  induction l with
  | nil =>
      intro rs h
      rw [renameSheets] at h
      cases h
      rfl
  | cons sheet rest ih =>
      intro rs h
      rw [renameSheets] at h
      cases hl : List.lookup sheet.title config.sheet_names with
      | none => rw [hl] at h; cases h
      | some t =>
          rw [hl] at h
          cases hr : renameSheets config rest with
          | error e => rw [hr] at h; cases h
          | ok rs' =>
              rw [hr] at h
              cases h
              simp [ih hr]

theorem renameSheets_titles (config : SheetNameConfig) :
    ∀ {l rs : List Sheet}, renameSheets config l = Except.ok rs →
      rs.map Sheet.title
        = l.map (fun sh => (List.lookup sh.title config.sheet_names).getD sh.title) := by
  intro l
  induction l with
  | nil =>
      intro rs h
      rw [renameSheets] at h
      cases h
      rfl
  | cons sheet rest ih =>
      intro rs h
      rw [renameSheets] at h
      cases hl : List.lookup sheet.title config.sheet_names with
      | none => rw [hl] at h; cases h
      | some t =>
          rw [hl] at h
          cases hr : renameSheets config rest with
          | error e => rw [hr] at h; cases h
          | ok rs' =>
              rw [hr] at h
              cases h
              simp [ih hr, hl]

theorem filterMap_if_length {α β : Type} (p : α → Bool) (g : α → β) :
    ∀ l : List α,
      (l.filterMap (fun x => if p x then Option.none else some (g x))).length
        = (l.filter (fun x => !p x)).length := by
  intro l
  induction l with
  | nil => rfl
  | cons x xs ih =>
      cases hx : p x <;>
        simp [List.filterMap_cons, List.filter_cons, hx, ih]

/-! ### Claim theorems -/

/-- C1: the claim says the header row is the union of the keys of ALL rows of
the property.  The code (rev_tran.py line 234) takes the keys of the first
row only: on the acceptance input of the spec (`smColumnUnion`), the produced
header is `alias, accession, col1` and does not contain `col2`. -/
theorem reverse_transpile_headers_from_first_row_only :
    (reverseTranspile cfgEx smColumnUnion).map (fun wb => wb.sheets.map Sheet.header)
      = Except.ok [["alias", "accession", "col1"]]
    ∧ "col2" ∉ ["alias", "accession", "col1"] := by decide

/-- C2: the claim says an unconfigured property name is truncated to 31
characters and never raises.  The code (`_rename_sheets`, rev_tran.py lines
172-178) raises `SheetNamingError` for any sheet title that is not a key of
the configured mapping; configured names are displayed as configured. -/
theorem reverse_transpile_unconfigured_sheet_raises :
    reverseTranspile cfgEx smUnconfiguredSheet = Except.error ⟨"bald_knobber"⟩
    ∧ (reverseTranspile cfgEx smSingle).map (fun wb => wb.sheets.map Sheet.title)
        = Except.ok ["Sample"] := by decide

/-- C3 counterexample: on a property whose rows have `accession` but no
`alias`, the claim puts `accession` at position 0; the code leaves the first
column in place and inserts `accession` at position 1. -/
theorem reorder_no_alias_counterexample :
    (reverseTranspile cfgEx smNoAlias).map
        (fun wb => wb.sheets.map (fun sh => sh.header[0]?))
      = Except.ok [some "col1"]
    ∧ ¬ ((reverseTranspile cfgEx smNoAlias).map
          (fun wb => wb.sheets.map (fun sh => sh.header[0]?))
        = Except.ok [some "accession"]) := by decide

/-- C3 (amended): `alias`, when present, is moved to position 0; `accession`,
when present, is inserted at index 1 regardless of whether `alias` is present
(so it ends at position 1 whenever at least one other column remains, even
with `alias` absent); the absence of either key merely skips that promotion,
and all other columns keep their relative order. -/
theorem reorder_headers_amended (hs : List String) :
    ("alias" ∈ hs → (reorderHeaders hs)[0]? = some "alias")
    ∧ ("alias" ∈ hs → "accession" ∈ hs → (reorderHeaders hs)[1]? = some "accession")
    ∧ ("alias" ∉ hs → "accession" ∈ hs → 2 ≤ hs.length →
        (reorderHeaders hs)[1]? = some "accession")
    ∧ ("alias" ∉ hs → "accession" ∉ hs → reorderHeaders hs = hs)
    ∧ (reorderHeaders hs).filter (fun h => !(h == "alias" || h == "accession"))
        = hs.filter (fun h => !(h == "alias" || h == "accession")) := by
  refine ⟨?_, ?_, ?_, ?_, reorderHeaders_filter hs⟩
  · intro hal
    by_cases hacc : "accession" ∈ hs
    · rw [(reorderHeaders_alias_mem hal).1 hacc]; simp
    · rw [(reorderHeaders_alias_mem hal).2 hacc]; simp
  · intro hal hacc
    rw [(reorderHeaders_alias_mem hal).1 hacc]; simp
  · intro hal hacc hlen
    rw [(reorderHeaders_no_alias hal).1 hacc]
    have hlen' : 1 ≤ (hs.erase "accession").length := by
      rw [List.length_erase_of_mem hacc]; omega
    cases herase : hs.erase "accession" with
    | nil => rw [herase] at hlen'; simp at hlen'
    | cons b t => rw [pyInsert_one_cons]; simp
  · intro hal hacc
    exact (reorderHeaders_no_alias hal).2 hacc

/-- Witness for `reorder_headers_amended` at concrete header lists. -/
theorem reorder_headers_amended_witness :
    (reorderHeaders ["x", "accession", "y", "alias"])[0]? = some "alias"
    ∧ (reorderHeaders ["x", "accession", "y", "alias"])[1]? = some "accession"
    ∧ (reorderHeaders ["x", "accession"])[1]? = some "accession"
    ∧ reorderHeaders ["x", "y"] = ["x", "y"] :=
  ⟨(reorder_headers_amended _).1 (by decide),
   (reorder_headers_amended _).2.1 (by decide) (by decide),
   (reorder_headers_amended _).2.2.1 (by decide) (by decide) (by decide),
   (reorder_headers_amended _).2.2.2.1 (by decide) (by decide)⟩

/-- C4: when the stored document under the accession is deep-equal to the
incoming one in the sense of Python `==` on the `model_dump()` outputs
(`pyEqSM`: insensitive to dict insertion order, identifying numerically equal
scalars such as `True` and `1`), `upsert_metadata` is a no-op: identical
final state, no writes to either store.  When the accession is absent or the
stored document differs, the document is written and then either
transpilation succeeds and the freshly transpiled workbook is written too
(replace semantics), or transpilation raises `SheetNamingError`, which in the
code happens after the metadata write and before the workbook write - the
three conjuncts cover every path of the operation. -/
theorem upsert_metadata_idempotence (config : SheetNameConfig) (s : StoreState)
    (sm : StudyMetadata) :
    (∀ ex, s.metadata sm.study_accession = some ex → pyEqSM ex sm = true →
      upsertMetadata config s sm = (s, Option.none))
    ∧ (∀ wb, (∀ ex, s.metadata sm.study_accession = some ex → pyEqSM ex sm = false) →
        reverseTranspile config sm = Except.ok wb →
        upsertMetadata config s sm
          = (workbookDaoUpsert (daoUpsertMetadata s sm) sm.study_accession wb,
             Option.none))
    ∧ (∀ e, (∀ ex, s.metadata sm.study_accession = some ex → pyEqSM ex sm = false) →
        reverseTranspile config sm = Except.error e →
        upsertMetadata config s sm = (daoUpsertMetadata s sm, some e)) := by
  refine ⟨?_, ?_, ?_⟩
  · intro ex hm hpy
    rw [upsertMetadata, daoGetById, hm]
    simp [hpy]
  · intro wb hdiff htr
    rw [upsertMetadata, daoGetById]
    cases hm : s.metadata sm.study_accession with
    | none => simp [htr]
    | some ex => simp [htr, hdiff ex hm]
  · intro e hdiff htr
    rw [upsertMetadata, daoGetById]
    cases hm : s.metadata sm.study_accession with
    | none => simp [htr]
    | some ex => simp [htr, hdiff ex hm]

/-- Witness for `upsert_metadata_idempotence`: a stored document that equals
the incoming one only up to dict key order and `True` versus `1` still makes
the upsert a no-op; on an empty store both writes happen; an unconfigured
sheet name leaves the metadata written and the error raised. -/
theorem upsert_metadata_idempotence_witness :
    upsertMetadata cfgEx storeWithTwoKeys smTwoKeys
        = (storeWithTwoKeys, Option.none)
    ∧ upsertMetadata cfgEx emptyStore smSingle
        = (workbookDaoUpsert (daoUpsertMetadata emptyStore smSingle)
            smSingle.study_accession wbSingle, Option.none)
    ∧ upsertMetadata cfgEx emptyStore smUnconfiguredSheet
        = (daoUpsertMetadata emptyStore smUnconfiguredSheet,
           some ⟨"bald_knobber"⟩) :=
  ⟨(upsert_metadata_idempotence cfgEx storeWithTwoKeys smTwoKeys).1
     smTwoKeysReordered (by decide) (by decide),
   (upsert_metadata_idempotence cfgEx emptyStore smSingle).2.1 wbSingle
     (fun ex h => nomatch h) (by decide),
   (upsert_metadata_idempotence cfgEx emptyStore smUnconfiguredSheet).2.2
     ⟨"bald_knobber"⟩ (fun ex h => nomatch h) (by decide)⟩

/-- C5: `_format_value` returns scalars unchanged; formats a list by dropping
`None` elements, formatting the rest and joining with `"; "` (an empty or
all-`None` list gives the empty string); formats a dict with key set exactly
`\x7bkey, value\x7d` as `key=value`; and formats any other dict entrywise
joined with `";"` — including the three acceptance examples. -/
theorem format_value_spec :
    (∀ s, formatValue (.str s) = .str s)
    ∧ (∀ b, formatValue (.bool b) = .bool b)
    ∧ (∀ n, formatValue (.int n) = .int n)
    ∧ (∀ q l, formatValue (.float q l) = .float q l)
    ∧ formatValue .none = .none
    ∧ (∀ xs, formatValue (.list xs)
        = .str (String.intercalate "; "
            ((xs.filter (fun v => !v.isNone)).map (fun v => pystr (formatValue v)))))
    ∧ (∀ xs, (∀ v ∈ xs, v = PyVal.none) → formatValue (.list xs) = .str "")
    ∧ (∀ es kv vv, keysEqKV es = true → List.lookup "key" es = some kv →
        List.lookup "value" es = some vv →
        formatValue (.dict es) = .str (pystr kv ++ "=" ++ pystr (formatValue vv)))
    ∧ (∀ es, keysEqKV es = false →
        formatValue (.dict es) = .str (String.intercalate ";"
          (es.map (fun e => e.1 ++ "=" ++ pystr (formatValue e.2)))))
    ∧ formatValue (.list [.str "a", .none, .str "b"]) = .str "a; b"
    ∧ formatValue (.dict [("key", .str "x"), ("value", .str "y")]) = .str "x=y"
    ∧ formatValue (.dict [("k1", .str "v1"), ("k2", .str "v2")])
        = .str "k1=v1;k2=v2" := by
  refine ⟨fun s => rfl, fun b => rfl, fun n => rfl, fun q l => rfl, rfl,
    formatValue_list, ?_, fun es kv vv h hk hv => formatValue_dict_kv h hk hv,
    fun es h => formatValue_dict_other h, by decide, by decide, by decide⟩
  intro xs hall
  rw [formatValue_list]
  have hf : xs.filter (fun v => !v.isNone) = [] := by
    rw [List.filter_eq_nil_iff]
    intro a ha
    rw [hall a ha]
    simp [PyVal.isNone]
  rw [hf]
  rfl

/-- Witness for `format_value_spec` at concrete inputs with hypotheses. -/
theorem format_value_spec_witness :
    formatValue (.list [PyVal.none, PyVal.none]) = .str ""
    ∧ formatValue (.dict [("key", .str "x"), ("value", .str "y")])
        = .str (pystr (PyVal.str "x") ++ "=" ++ pystr (formatValue (PyVal.str "y")))
    ∧ formatValue (.dict [("k1", .str "v1"), ("k2", .str "v2")])
        = .str (String.intercalate ";"
            ([("k1", PyVal.str "v1"), ("k2", PyVal.str "v2")].map
              (fun e => e.1 ++ "=" ++ pystr (formatValue e.2)))) := by
  obtain ⟨-, -, -, -, -, -, hall, hkv, hother, -, -, -⟩ := format_value_spec
  exact ⟨hall _ (by decide), hkv _ _ _ (by decide) (by decide) (by decide),
    hother _ (by decide)⟩

/-- C6: `_format_value` is total over every JSON-like value: the fuelled
evaluator (in which exhausted recursion and a `KeyError` on the guarded
subscripts both surface as `Option.none`) returns a value within `pysize v`
steps, and that value is `formatValue v`. -/
theorem format_value_total (v : PyVal) :
    ∃ r, formatValueF (pysize v) v = some r ∧ formatValue v = r := by
  obtain ⟨r, hr⟩ :=
    Option.isSome_iff_exists.mp (formatValueF_isSome (pysize v) v le_rfl)
  refine ⟨r, hr, ?_⟩
  rw [formatValue, hr]
  rfl

/-- C7: `retrieve_metadata` and `retrieve_workbook` raise the domain-level
`MetadataNotFoundError` carrying the accession exactly when the respective
store lacks the key (the store-level error is never surfaced), and return the
stored value unchanged when it is present; an unknown accession thus yields
the same error from both. -/
theorem retrieve_not_found_mapping (s : StoreState) (acc : String) :
    (retrieveMetadata s acc = Except.error ⟨acc⟩ ↔ s.metadata acc = Option.none)
    ∧ (∀ m, retrieveMetadata s acc = Except.ok m ↔ s.metadata acc = some m)
    ∧ (retrieveWorkbook s acc = Except.error ⟨acc⟩ ↔ s.workbooks acc = Option.none)
    ∧ (∀ wb, retrieveWorkbook s acc = Except.ok wb ↔ s.workbooks acc = some wb) := by
  refine ⟨?_, ?_, ?_, ?_⟩
  · rw [retrieveMetadata, daoGetById]
    cases s.metadata acc <;> simp
  · intro m
    rw [retrieveMetadata, daoGetById]
    cases s.metadata acc <;> simp
  · rw [retrieveWorkbook, workbookDaoFind]
    cases s.workbooks acc <;> simp
  · intro wb
    rw [retrieveWorkbook, workbookDaoFind]
    cases s.workbooks acc <;> simp

/-- C8: `delete_metadata` swallows a metadata-store not-found, always attempts
the workbook delete (which never signals not-found), and afterwards neither
document nor workbook remains under the accession; it is total for every
store state, including absent accessions. -/
theorem delete_metadata_idempotent (s : StoreState) (acc : String) :
    (deleteMetadata s acc).metadata acc = Option.none
    ∧ (deleteMetadata s acc).workbooks acc = Option.none := by
  constructor <;>
  · simp only [deleteMetadata, workbookDaoDelete, daoDeleteMetadata]
    cases hm : s.metadata acc <;> simp [hm]

/-- C9: a property with an empty row sequence produces no sheet (so an
all-empty document yields a workbook with zero sheets), and in general the
workbook has exactly one sheet per non-empty property. -/
theorem empty_property_produces_no_sheet (config : SheetNameConfig)
    (sm : StudyMetadata) :
    ((∀ pr ∈ sm.content, pr.2 = []) → reverseTranspile config sm = Except.ok ⟨[]⟩)
    ∧ (∀ wb, reverseTranspile config sm = Except.ok wb →
        wb.sheets.length = (sm.content.filter (fun pr => !pr.2.isEmpty)).length) := by
  constructor
  · intro hall
    rw [reverseTranspile]
    have hnil : sm.content.filterMap (fun pr =>
        if pr.2.isEmpty then Option.none else some (buildSheet pr.1 pr.2)) = [] := by
      rw [List.filterMap_eq_nil_iff]
      intro pr hpr
      rw [hall pr hpr]
      rfl
    rw [hnil, renameSheets]
    rfl
  · intro wb h
    rw [reverseTranspile] at h
    cases hr : renameSheets config (sm.content.filterMap fun pr =>
        if pr.2.isEmpty then Option.none else some (buildSheet pr.1 pr.2)) with
    | error e => rw [hr] at h; cases h
    | ok rs =>
        rw [hr] at h
        simp only [Except.map] at h
        cases h
        simp only [renameSheets_length config hr]
        exact filterMap_if_length (fun pr => pr.2.isEmpty)
          (fun pr => buildSheet pr.1 pr.2) sm.content

/-- Witness for `empty_property_produces_no_sheet`. -/
theorem empty_property_produces_no_sheet_witness :
    reverseTranspile cfgEx smAllEmpty = Except.ok ⟨[]⟩
    ∧ wbSingle.sheets.length
        = (smSingle.content.filter (fun pr => !pr.2.isEmpty)).length :=
  ⟨(empty_property_produces_no_sheet cfgEx smAllEmpty).1 (by decide),
   (empty_property_produces_no_sheet cfgEx smSingle).2 wbSingle (by decide)⟩

/-- C10: the number format of a data cell is decided on the raw (pre-formatting)
value and is `"0"` exactly for ints, `"0.00"` exactly for floats, and absent
for everything else — in particular for booleans, which in Python satisfy
`isinstance(value, int)` but are excluded by the `bool` check. -/
theorem numeric_cell_format (rowData : PyRow) (h : String) :
    ((makeCell rowData h).numberFormat = numberFormatFor (rawCellValue rowData h))
    ∧ (∀ v, (numberFormatFor v = some "0" ↔ ∃ n, v = PyVal.int n))
    ∧ (∀ v, (numberFormatFor v = some "0.00" ↔ ∃ q lit, v = PyVal.float q lit))
    ∧ (∀ b, numberFormatFor (PyVal.bool b) = Option.none) := by
  refine ⟨rfl, ?_, ?_, ?_⟩
  · intro v
    cases v <;> simp [numberFormatFor, pyIsInstIntOrFloat, pyIsInstInt, pyIsInstBool]
  · intro v
    cases v <;> simp [numberFormatFor, pyIsInstIntOrFloat, pyIsInstInt, pyIsInstBool]
  · intro b
    simp [numberFormatFor, pyIsInstIntOrFloat, pyIsInstInt, pyIsInstBool]
